import Mathlib

/-!
WordGame_EA: the game-session controller of `wordgame-ui`

A shallow embedding of `wordgame-ui/src/App.jsx` (the functions `normalizeGuess`,
`completedFrom`, `start`, `submitGuess` and the component state they act on) and of
`wordgame-ui/src/api.js` (`newGame`, `makeGuess`), followed by theorems about them.

JavaScript strings are embedded as Lean strings (sequences of code points); `length`
and `indexOf` count UTF-16 code units as the JavaScript operations do.
-/

namespace WordGame

/-! ## JavaScript string operations used by the source -/

/-- Number of UTF-16 code units taken by one code point. -/
def unitLength (c : Char) : Nat :=
  if c.toNat < 0x10000 then 1 else 2

/-- The JavaScript `s.length`: the number of UTF-16 code units of `s`. -/
def jsLength : List Char → Nat
  | [] => 0
  | c :: cs => unitLength c + jsLength cs

/-- Search for the one-character needle `c` in `s`, where `k` is the code-unit
offset of the first character of `s`; `-1` when the needle does not occur. -/
def indexOfFrom (c : Char) : List Char → Nat → Int
  | [], _ => -1
  | x :: xs, k => if x = c then (k : Int) else indexOfFrom c xs (k + unitLength x)

/-- The JavaScript `s.indexOf(c)` for a one-character needle. -/
def indexOf (s : String) (c : Char) : Int :=
  indexOfFrom c s.data 0

/-! ## Status and its derivation (`App.jsx`, lines 21 and 56-61) -/

/-- The values of the `status` state variable: `idle | playing | won | lost`. -/
inductive Status
  | idle
  | playing
  | won
  | lost
  deriving DecidableEq, Repr

/-- The source function `completedFrom(board, rem)`. The board is `none` for the
JavaScript `undefined`; `!board` holds for `undefined` and for the empty string. -/
def completedFrom (board : Option String) (rem : Int) : Status :=
  match board with
  | none => Status.idle
  | some b =>
    if b = "" then Status.idle
    else if indexOf b '_' = -1 then Status.won
    else if rem = 0 then Status.lost
    else Status.playing

/-- A board contains a placeholder when the character `_` occurs in it. -/
def hasPlaceholder (b : String) : Prop :=
  '_' ∈ b.data

instance (b : String) : Decidable (hasPlaceholder b) :=
  inferInstanceAs (Decidable ('_' ∈ b.data))

/-- The derivation rule as the specification words it: four cases, in order. -/
def derive (board : Option String) (attemptsRemaining : Int) : Status :=
  match board with
  | none => Status.idle
  | some b =>
    if b.data = [] then Status.idle
    else if ¬ hasPlaceholder b then Status.won
    else if attemptsRemaining = 0 then Status.lost
    else Status.playing

/-! ## Input normalisation (`App.jsx`, lines 7-14) -/

/-- The code points that `String.prototype.trim` strips: the ECMAScript WhiteSpace
and LineTerminator productions. -/
def isWhiteSpace (c : Char) : Bool :=
  let n := c.toNat
  (decide (0x9 ≤ n) && decide (n ≤ 0xD)) || n == 0x20 || n == 0xA0 || n == 0x1680 ||
  (decide (0x2000 ≤ n) && decide (n ≤ 0x200A)) || n == 0x2028 || n == 0x2029 ||
  n == 0x202F || n == 0x205F || n == 0x3000 || n == 0xFEFF

/-- The JavaScript `s.trim()`: white space is dropped from both ends. -/
def trim (s : List Char) : List Char :=
  (s.dropWhile isWhiteSpace).rdropWhile isWhiteSpace

/-- The JavaScript `s.toUpperCase()`: every code point is replaced by its uppercase
mapping, which may be several code points long. On ASCII the mapping sends `a`-`z`
to `A`-`Z` and fixes everything else; outside ASCII it is the Unicode table of the
JavaScript engine, which the repository does not contain and which is therefore the
parameter `table`. -/
def toUpperCase (table : Char → List Char) (s : List Char) : List Char :=
  s.flatMap (fun c => if c.toNat < 128 then [c.toUpper] else table c)

/-- The source function `normalizeGuess(input)`; the empty string is the invalid
result. The index `s[0]` is only reached when `s` is one code unit long. -/
def normalizeGuess (table : Char → List Char) (input : String) : String :=
  if input = "" then ""
  else
    let s := toUpperCase table (trim input.data)
    if jsLength s ≠ 1 then ""
    else
      match s with
      | [] => ""
      | c :: _ => if c < 'A' ∨ c > 'Z' then "" else String.singleton c

/-- An uppercase table that leaves every non-ASCII code point as it is; used to
evaluate the definitions on ASCII inputs. -/
def plainTable : Char → List Char :=
  fun c => [c]

/-! ## The remote operations (`api.js`) -/

/-- A thrown JavaScript error: its `name`, its `message`, and the `status` property
that `makeGuess` attaches (absent on every other error). -/
structure JsError where
  name : String
  message : String
  status : Option Nat
  deriving DecidableEq, Repr

/-- The JavaScript `String(e)` of an error object (`Error.prototype.toString`). -/
def JsError.toText (e : JsError) : String :=
  if e.name = "" then e.message
  else if e.message = "" then e.name
  else e.name ++ ": " ++ e.message

/-- The expression `String(e.message || e)` of both `catch` blocks. -/
def errorText (e : JsError) : String :=
  if e.message ≠ "" then e.message else e.toText

/-- What a `fetch` call gives: it rejects, or it resolves to a response with a
status code, whose body readers `res.text()` and `res.json()` resolve or reject. -/
inductive Fetched (α : Type)
  | rejected (e : JsError)
  | response (status : Nat) (text : Except JsError String) (json : Except JsError α)

/-- The property `res.ok`: the status code is in the range 200-299. -/
def resOk (status : Nat) : Bool :=
  decide (200 ≤ status) && decide (status ≤ 299)

/-- The body of a successful start-game response. -/
structure NewGameJson where
  id : String
  current : String
  guesses_remaining : Int
  deriving DecidableEq, Repr

/-- The body of a successful guess response. -/
structure GuessJson where
  current : String
  guesses_remaining : Int
  deriving DecidableEq, Repr

/-- The body `{ id, guess }` that `makeGuess` posts to `/api/guess`. -/
structure GuessRequest where
  id : String
  guess : String
  deriving DecidableEq, Repr

/-- The source function `newGame()` of `api.js`, given what its `fetch` call gives. -/
def newGame (fetched : Fetched NewGameJson) : Except JsError NewGameJson :=
  match fetched with
  | Fetched.rejected e => Except.error e
  | Fetched.response status text json =>
    if ¬ resOk status then
      match text with
      | Except.error e => Except.error e
      | Except.ok t => Except.error { name := "Error", message := t, status := none }
    else json

/-- The source function `makeGuess(id, guess)` of `api.js`; `fetch` maps the posted
body to what the call gives. -/
def makeGuess (fetch : GuessRequest → Fetched GuessJson) (id guess : String) :
    Except JsError GuessJson :=
  match fetch { id := id, guess := guess } with
  | Fetched.rejected e => Except.error e
  | Fetched.response status text json =>
    if ¬ resOk status then
      match text with
      | Except.error e => Except.error e
      | Except.ok t =>
        Except.error
          { name := "Error"
            message := if t ≠ "" then t else "HTTP " ++ toString status
            status := some status }
    else json

/-! ## The session state and its two operations (`App.jsx`, lines 17-93) -/

/-- The state variables of the `App` component. `used` is the JavaScript `Set` of
used letters, kept as the list of its members in insertion order. -/
structure Session where
  gameId : String
  current : String
  remaining : Int
  used : List String
  status : Status
  loading : Bool
  errMsg : String
  guessInput : String
  deriving DecidableEq, Repr

/-- The initial values given to `useState`. -/
def initial : Session :=
  { gameId := "", current := "", remaining := 6, used := [], status := Status.idle,
    loading := false, errMsg := "", guessInput := "" }

/-- The update `prev => { const copy = new Set(prev); copy.add(g); return copy }`. -/
def setAdd (prev : List String) (g : String) : List String :=
  if g ∈ prev then prev else prev ++ [g]

/-- The source function `start`, run to completion on the state `s`. -/
def start (fetched : Fetched NewGameJson) (s : Session) : Session :=
  match newGame fetched with
  | Except.ok g =>
    { gameId := g.id, current := g.current, remaining := g.guesses_remaining, used := [],
      status := Status.playing, loading := false, errMsg := "", guessInput := "" }
  | Except.error e =>
    { s with errMsg := errorText e, status := Status.idle, loading := false }

/-- The source function `submitGuess`, run to completion on the state `s`. The second
component lists the bodies posted to the remote guess operation during the call. -/
def submitGuess (table : Char → List Char) (fetch : GuessRequest → Fetched GuessJson)
    (s : Session) (letter : String) : Session × List GuessRequest :=
  let g := normalizeGuess table letter
  if g = "" then (s, [])
  else if s.status ≠ Status.playing then (s, [])
  else if g ∈ s.used then (s, [])
  else
    match makeGuess fetch s.gameId g with
    | Except.ok next =>
      ({ s with
          current := next.current
          remaining := next.guesses_remaining
          used := setAdd s.used g
          status := completedFrom (some next.current) next.guesses_remaining
          errMsg := ""
          loading := false
          guessInput := "" },
        [{ id := s.gameId, guess := g }])
    | Except.error e =>
      ({ s with
          errMsg := errorText e
          status := if e.status = some 404 then Status.idle else s.status
          loading := false
          guessInput := "" },
        [{ id := s.gameId, guess := g }])

/-! ## Sequences of completed calls -/

/-- One completed call of the controller together with what the remote gave. -/
inductive Event
  | start (fetched : Fetched NewGameJson)
  | guess (letter : String) (fetched : Fetched GuessJson)

/-- The state after one completed call. -/
def step (table : Char → List Char) (s : Session) : Event → Session
  | Event.start fetched => start fetched s
  | Event.guess letter fetched => (submitGuess table (fun _ => fetched) s letter).1

/-- The state after a sequence of completed calls, from the state `s`. -/
def run (table : Char → List Char) (s : Session) (events : List Event) : Session :=
  events.foldl (step table) s

/-- The id carried by a start-game response, when the response is successful. -/
def startId (fetched : Fetched NewGameJson) : Option String :=
  match newGame fetched with
  | Except.ok g => some g.id
  | Except.error _ => none

/-- Every successful start-game response among the events carries a non-empty id. -/
def idsDefined : List Event → Prop
  | [] => True
  | Event.start fetched :: rest => startId fetched ≠ some "" ∧ idsDefined rest
  | Event.guess _ _ :: rest => idsDefined rest

/-- The id of the most recent successful start among the events, or `id0` when no
start among them is successful. -/
def lastStartId (id0 : String) : List Event → String
  | [] => id0
  | Event.start fetched :: rest => lastStartId ((startId fetched).getD id0) rest
  | Event.guess _ _ :: rest => lastStartId id0 rest

/-- A finished status agrees with the board and the attempts: won only on a non-empty
board without a placeholder, lost only with no attempts left and a placeholder. -/
def Settled (s : Session) : Prop :=
  (s.status = Status.won → s.current ≠ "" ∧ ¬ hasPlaceholder s.current) ∧
  (s.status = Status.lost → s.remaining = 0 ∧ hasPlaceholder s.current)

/-- A status other than idle comes with a non-empty game id. -/
def Identified (s : Session) : Prop :=
  s.status ≠ Status.idle → s.gameId ≠ ""

/-! ## Sample responses and states, used to evaluate the definitions -/

/-- A successful start-game response: `{id:"abc123", current:"_ _ _", guesses_remaining:6}`. -/
def startedOk : Fetched NewGameJson :=
  Fetched.response 200 (Except.ok "")
    (Except.ok { id := "abc123", current := "_ _ _", guesses_remaining := 6 })

/-- A successful start-game response whose id is the empty string. -/
def startedNoId : Fetched NewGameJson :=
  Fetched.response 200 (Except.ok "")
    (Except.ok { id := "", current := "_ _ _", guesses_remaining := 6 })

/-- A failed start-game response: status 500 with the body `boom`. -/
def startedFail : Fetched NewGameJson :=
  Fetched.response 500 (Except.ok "boom") (Except.error ⟨"SyntaxError", "bad json", none⟩)

/-- A successful guess response: `{current:"_ P _", guesses_remaining:6}`. -/
def guessedOk : Fetched GuessJson :=
  Fetched.response 200 (Except.ok "") (Except.ok { current := "_ P _", guesses_remaining := 6 })

/-- A successful guess response that completes the word:
`{current:"P P P", guesses_remaining:2}`. -/
def guessedWin : Fetched GuessJson :=
  Fetched.response 200 (Except.ok "") (Except.ok { current := "P P P", guesses_remaining := 2 })

/-- A successful guess response that exhausts the attempts:
`{current:"_ P _", guesses_remaining:0}`. -/
def guessedLoss : Fetched GuessJson :=
  Fetched.response 200 (Except.ok "") (Except.ok { current := "_ P _", guesses_remaining := 0 })

/-- A failed guess response: status 404 with the body `game not found`. -/
def guessedNotFound : Fetched GuessJson :=
  Fetched.response 404 (Except.ok "game not found")
    (Except.error ⟨"SyntaxError", "bad json", none⟩)

/-- A failed guess response: status 500 with an empty body. -/
def guessedServerError : Fetched GuessJson :=
  Fetched.response 500 (Except.ok "") (Except.error ⟨"SyntaxError", "bad json", none⟩)

/-- The state after one successful start. -/
def playingState : Session :=
  run plainTable initial [Event.start startedOk]

/-- The state after a successful start and the accepted guess `p`. -/
def guessedState : Session :=
  run plainTable initial [Event.start startedOk, Event.guess "p" guessedOk]

/-- The state after a successful start and a guess that completes the word. -/
def wonState : Session :=
  run plainTable initial [Event.start startedOk, Event.guess "p" guessedWin]

/-! ## Lemmas on strings -/

theorem indexOfFrom_nonneg_of_mem (c : Char) :
    ∀ (s : List Char) (k : Nat), c ∈ s → 0 ≤ indexOfFrom c s k
  | [], _, h => by simp at h
  | x :: xs, k, h => by
    unfold indexOfFrom
    split
    · exact Int.ofNat_nonneg k
    · rename_i hx
      have hmem : c ∈ xs := by
        rcases List.mem_cons.mp h with h1 | h1
        · exact absurd h1.symm hx
        · exact h1
      exact indexOfFrom_nonneg_of_mem c xs _ hmem

theorem indexOfFrom_of_not_mem (c : Char) :
    ∀ (s : List Char) (k : Nat), c ∉ s → indexOfFrom c s k = -1
  | [], _, _ => rfl
  | x :: xs, k, h => by
    unfold indexOfFrom
    have hx : ¬ x = c := fun e => h (by simp [e])
    have hxs : c ∉ xs := fun e => h (List.mem_cons_of_mem _ e)
    simp only [hx, if_false]
    exact indexOfFrom_of_not_mem c xs _ hxs

theorem indexOf_eq_neg_one_iff (s : String) (c : Char) :
    indexOf s c = -1 ↔ c ∉ s.data := by
  constructor
  · intro h hmem
    have := indexOfFrom_nonneg_of_mem c s.data 0 hmem
    unfold indexOf at h
    omega
  · intro h
    exact indexOfFrom_of_not_mem c s.data 0 h

theorem string_eq_empty_iff (s : String) : s = "" ↔ s.data = [] := by
  constructor
  · intro h
    rw [h]
  · intro h
    exact String.ext h

/-! ## Theorems on the status derivation -/

theorem completedFrom_refines (board : Option String) (n : Int) :
    completedFrom board n = derive board n := by
  cases board with
  | none => rfl
  | some b =>
    simp only [completedFrom, derive, hasPlaceholder, string_eq_empty_iff,
      indexOf_eq_neg_one_iff]

theorem completedFrom_of_placeholder (b : String) (n : Int) (hb : hasPlaceholder b) :
    (n = 0 → completedFrom (some b) n = Status.lost) ∧
    (n ≠ 0 → completedFrom (some b) n = Status.playing) := by
  have hne : ¬ b = "" := by
    intro h
    rw [h] at hb
    simp [hasPlaceholder] at hb
  have hidx : ¬ indexOf b '_' = -1 := by
    rw [indexOf_eq_neg_one_iff]
    exact fun h => h hb
  refine ⟨?_, ?_⟩
  · intro hn
    simp [completedFrom, hne, hidx, hn]
  · intro hn0
    simp [completedFrom, hne, hidx, hn0]

theorem completedFrom_of_full (b : String) (n : Int)
    (hne : b ≠ "") (hb : ¬ hasPlaceholder b) :
    completedFrom (some b) n = Status.won := by
  have hidx : indexOf b '_' = -1 := (indexOf_eq_neg_one_iff b '_').mpr hb
  simp [completedFrom, hne, hidx]

/-- C1: `completedFrom(board, n)` equals the four-case rule evaluated in order (idle for
an empty or undefined board, else won without a placeholder, else lost when `n = 0`,
else playing); for a board with a placeholder it is lost at `n = 0` and playing at
`n > 0`. -/
theorem completedFrom_eq_derive :
    (∀ (board : Option String) (n : Int), completedFrom board n = derive board n) ∧
    (∀ (b : String) (n : Int), hasPlaceholder b →
      (n = 0 → completedFrom (some b) n = Status.lost) ∧
      (0 < n → completedFrom (some b) n = Status.playing)) := by
  refine ⟨completedFrom_refines, ?_⟩
  intro b n hb
  refine ⟨(completedFrom_of_placeholder b n hb).1, ?_⟩
  intro hn
  exact (completedFrom_of_placeholder b n hb).2 (by omega)

/-- Witness for C1: the board `_ P _` with 0 attempts is lost, and with 6 it is playing. -/
theorem completedFrom_eq_derive_witness :
    hasPlaceholder "_ P _" ∧
    completedFrom (some "_ P _") 0 = Status.lost ∧
    completedFrom (some "_ P _") 6 = Status.playing :=
  ⟨by decide, ((completedFrom_eq_derive.2 "_ P _" 0 (by decide)).1 rfl),
   ((completedFrom_eq_derive.2 "_ P _" 6 (by decide)).2 (by decide))⟩

/-- C2 fails as stated: the empty board contains no placeholder, yet `completedFrom`
returns idle on it, not won. -/
theorem completedFrom_empty_board_not_won :
    ¬ hasPlaceholder "" ∧ completedFrom (some "") 0 = Status.idle ∧
    completedFrom (some "") 0 ≠ Status.won := by
  decide

/-- C2 (amended): for every non-empty board without a placeholder and every attempts
value `n`, also `n = 0`, `completedFrom` returns won. -/
theorem completedFrom_won_of_no_placeholder (b : String) (n : Int)
    (hne : b ≠ "") (hb : ¬ hasPlaceholder b) :
    completedFrom (some b) n = Status.won :=
  completedFrom_of_full b n hne hb

/-- Witness for C2 (amended): the full board `P P P` with 0 attempts left is won. -/
theorem completedFrom_won_of_no_placeholder_witness :
    ("P P P" : String) ≠ "" ∧ ¬ hasPlaceholder "P P P" ∧
    completedFrom (some "P P P") 0 = Status.won :=
  ⟨by decide, by decide,
   completedFrom_won_of_no_placeholder "P P P" 0 (by decide) (by decide)⟩

/-! ## Theorems on input normalisation -/

theorem char_lt_iff (a b : Char) : a < b ↔ a.toNat < b.toNat :=
  Iff.rfl

theorem char_le_iff (a b : Char) : a ≤ b ↔ a.toNat ≤ b.toNat :=
  Iff.rfl

theorem unitLength_pos (c : Char) : 1 ≤ unitLength c := by
  unfold unitLength
  split <;> omega

theorem jsLength_eq_one_iff (s : List Char) :
    jsLength s = 1 ↔ ∃ c, s = [c] ∧ c.toNat < 0x10000 := by
  constructor
  · intro h
    match s, h with
    | [], h => simp [jsLength] at h
    | [c], h =>
      refine ⟨c, rfl, ?_⟩
      simp only [jsLength, unitLength] at h
      split at h
      · assumption
      · omega
    | c :: d :: rest, h =>
      simp only [jsLength] at h
      have h1 := unitLength_pos c
      have h2 := unitLength_pos d
      omega
  · rintro ⟨c, rfl, hc⟩
    simp [jsLength, unitLength, hc]

theorem singleton_ne_empty (c : Char) : String.singleton c ≠ "" := by
  intro h
  have := congrArg String.data h
  simp [String.singleton] at this

theorem singleton_inj (c d : Char) (h : String.singleton c = String.singleton d) : c = d := by
  have := congrArg String.data h
  simpa [String.singleton] using this

theorem letter_range_iff (c : Char) :
    ¬ (c < 'A' ∨ c > 'Z') ↔ (65 ≤ c.toNat ∧ c.toNat ≤ 90) := by
  have h1 : ('A' : Char).toNat = 65 := rfl
  have h2 : ('Z' : Char).toNat = 90 := rfl
  rw [gt_iff_lt, char_lt_iff, char_lt_iff, h1, h2]
  omega

theorem letter_bounds_iff (c : Char) :
    ('A' ≤ c ∧ c ≤ 'Z') ↔ (65 ≤ c.toNat ∧ c.toNat ≤ 90) := by
  have h1 : ('A' : Char).toNat = 65 := rfl
  have h2 : ('Z' : Char).toNat = 90 := rfl
  rw [char_le_iff, char_le_iff, h1, h2]

/-- The value of `normalizeGuess` once the trimmed, uppercased input is known to be
the single code point `c`. -/
theorem normalizeGuess_of_upper_eq (table : Char → List Char) (input : String) (c : Char)
    (hu : toUpperCase table (trim input.data) = [c]) :
    normalizeGuess table input =
      if 65 ≤ c.toNat ∧ c.toNat ≤ 90 then String.singleton c else "" := by
  have hne : ¬ input = "" := by
    intro h
    rw [h] at hu
    simp [trim, toUpperCase, List.rdropWhile] at hu
  unfold normalizeGuess
  simp only [hne, if_false, hu]
  by_cases hr : 65 ≤ c.toNat ∧ c.toNat ≤ 90
  · have hlen : jsLength [c] = 1 := (jsLength_eq_one_iff _).mpr ⟨c, rfl, by omega⟩
    have hrange : ¬ (c < 'A' ∨ c > 'Z') := (letter_range_iff c).mpr hr
    simp [hlen, hrange, hr]
  · have hrange : (c < 'A' ∨ c > 'Z') := by
      by_contra hcon
      exact hr ((letter_range_iff c).mp hcon)
    simp only [hr, if_false]
    split
    · rfl
    · simp [hrange]

/-- The value of `normalizeGuess` when the trimmed, uppercased input is not a single
code point. -/
theorem normalizeGuess_of_upper_ne (table : Char → List Char) (input : String)
    (hu : ∀ c, toUpperCase table (trim input.data) ≠ [c]) :
    normalizeGuess table input = "" := by
  unfold normalizeGuess
  split
  · rfl
  · simp only
    split
    · rfl
    · rename_i hlen
      exfalso
      have hlen1 : jsLength (toUpperCase table (trim input.data)) = 1 := by
        by_contra hne
        exact hlen hne
      obtain ⟨d, hd, _⟩ := (jsLength_eq_one_iff _).mp hlen1
      exact hu d hd

theorem normalizeGuess_eq_singleton_iff (table : Char → List Char) (input : String) (c : Char) :
    normalizeGuess table input = String.singleton c ↔
      (toUpperCase table (trim input.data) = [c] ∧ 'A' ≤ c ∧ c ≤ 'Z') := by
  rw [letter_bounds_iff]
  constructor
  · intro h
    by_cases hex : ∃ d, toUpperCase table (trim input.data) = [d]
    · obtain ⟨d, hd⟩ := hex
      rw [normalizeGuess_of_upper_eq table input d hd] at h
      split at h
      · rename_i hr
        have hdc : d = c := singleton_inj d c h
        subst hdc
        exact ⟨hd, hr⟩
      · exact absurd h.symm (singleton_ne_empty c)
    · have hall : ∀ d, toUpperCase table (trim input.data) ≠ [d] :=
        fun d hd => hex ⟨d, hd⟩
      rw [normalizeGuess_of_upper_ne table input hall] at h
      exact absurd h.symm (singleton_ne_empty c)
  · rintro ⟨hu, hr⟩
    rw [normalizeGuess_of_upper_eq table input c hu]
    simp [hr]

theorem normalizeGuess_eq_empty_of_not_letter (table : Char → List Char) (input : String)
    (h : ¬ ∃ c, toUpperCase table (trim input.data) = [c] ∧ 'A' ≤ c ∧ c ≤ 'Z') :
    normalizeGuess table input = "" := by
  by_cases hex : ∃ d, toUpperCase table (trim input.data) = [d]
  · obtain ⟨d, hd⟩ := hex
    rw [normalizeGuess_of_upper_eq table input d hd]
    split
    · rename_i hr
      exact absurd ⟨d, hd, (letter_bounds_iff d).mpr hr⟩ h
    · rfl
  · exact normalizeGuess_of_upper_ne table input (fun d hd => hex ⟨d, hd⟩)

theorem toUpper_of_lower (c : Char) (h1 : 97 ≤ c.toNat) (h2 : c.toNat ≤ 122) :
    c.toUpper.toNat + 32 = c.toNat := by
  have hc : c = Char.ofNat c.toNat := (Char.ofNat_toNat c).symm
  generalize c.toNat = n at hc h1 h2
  subst hc
  interval_cases n <;> decide

theorem toUpper_of_not_lower (c : Char) (h : ¬ (97 ≤ c.toNat ∧ c.toNat ≤ 122)) :
    c.toUpper = c := by
  unfold Char.toUpper
  simp only [ge_iff_le]
  rw [if_neg h]

theorem dropWhile_append_stop {α : Type} (p : α → Bool) (c : α) (rest : List α)
    (hc : p c = false) :
    ∀ pre : List α, (∀ x ∈ pre, p x = true) → (pre ++ c :: rest).dropWhile p = c :: rest
  | [], _ => by simp [List.dropWhile, hc]
  | x :: xs, h => by
    have hx : p x = true := h x (by simp)
    simp only [List.cons_append, List.dropWhile, hx]
    exact dropWhile_append_stop p c rest hc xs (fun y hy => h y (List.mem_cons_of_mem _ hy))

theorem rdropWhile_cons_stop {α : Type} (p : α → Bool) (c : α) (hc : p c = false)
    (post : List α) (h : ∀ x ∈ post, p x = true) : (c :: post).rdropWhile p = [c] := by
  unfold List.rdropWhile
  rw [List.reverse_cons]
  rw [dropWhile_append_stop p c [] hc post.reverse
    (fun x hx => h x (List.mem_reverse.mp hx))]
  rfl

theorem trim_surrounded (pre post : List Char) (c : Char)
    (hpre : ∀ x ∈ pre, isWhiteSpace x = true) (hpost : ∀ x ∈ post, isWhiteSpace x = true)
    (hc : isWhiteSpace c = false) : trim (pre ++ c :: post) = [c] := by
  unfold trim
  rw [dropWhile_append_stop isWhiteSpace c post hc pre hpre]
  exact rdropWhile_cons_stop isWhiteSpace c hc post hpost

theorem trim_whiteSpace (ws : List Char) (h : ∀ x ∈ ws, isWhiteSpace x = true) :
    trim ws = [] := by
  unfold trim
  rw [List.dropWhile_eq_nil_iff.mpr h]
  rfl

theorem mem_of_mem_trim (s : List Char) (x : Char) (h : x ∈ trim s) : x ∈ s := by
  unfold trim at h
  have h1 : x ∈ s.dropWhile isWhiteSpace :=
    (List.rdropWhile_prefix isWhiteSpace (s.dropWhile isWhiteSpace)).subset h
  exact (List.dropWhile_suffix isWhiteSpace).subset h1

theorem toUpperCase_length_of_ascii (table : Char → List Char) :
    ∀ s : List Char, (∀ x ∈ s, x.toNat < 128) → (toUpperCase table s).length = s.length
  | [], _ => rfl
  | x :: xs, h => by
    have hx : x.toNat < 128 := h x (by simp)
    have ih := toUpperCase_length_of_ascii table xs
      (fun y hy => h y (List.mem_cons_of_mem _ hy))
    unfold toUpperCase at ih ⊢
    simp [List.flatMap_cons, hx, ih]

/-- The value of `normalizeGuess` on one ASCII code point `c` that is not white space,
surrounded by white space. -/
theorem normalizeGuess_ascii (table : Char → List Char) (pre post : List Char) (c : Char)
    (hpre : ∀ x ∈ pre, isWhiteSpace x = true) (hpost : ∀ x ∈ post, isWhiteSpace x = true)
    (hc : isWhiteSpace c = false) (hascii : c.toNat < 128) :
    normalizeGuess table (String.mk (pre ++ c :: post)) =
      if 65 ≤ c.toUpper.toNat ∧ c.toUpper.toNat ≤ 90 then String.singleton c.toUpper
      else "" := by
  apply normalizeGuess_of_upper_eq
  show toUpperCase table (trim (pre ++ c :: post)) = [c.toUpper]
  rw [trim_surrounded pre post c hpre hpost hc]
  simp [toUpperCase, hascii]

theorem isWhiteSpace_of_lower (c : Char) (h1 : 97 ≤ c.toNat) (h2 : c.toNat ≤ 122) :
    isWhiteSpace c = false := by
  have hc : c = Char.ofNat c.toNat := (Char.ofNat_toNat c).symm
  generalize c.toNat = n at hc h1 h2
  subst hc
  interval_cases n <;> decide

/-- C3: `normalizeGuess(s)` returns the letter `c` exactly when trimming and
uppercasing `s` yields the single character `c` in the range A-Z, and returns the
empty string in every other case; a lowercase letter `a`-`z` with surrounding white
space is accepted and returned uppercased; the empty string, a string of white space
only, an ASCII digit or symbol, and an ASCII string that keeps two or more characters
after trimming are rejected. -/
theorem normalizeGuess_spec (table : Char → List Char) :
    (∀ (input : String) (c : Char),
      normalizeGuess table input = String.singleton c ↔
        (toUpperCase table (trim input.data) = [c] ∧ 'A' ≤ c ∧ c ≤ 'Z')) ∧
    (∀ input : String,
      (¬ ∃ c, toUpperCase table (trim input.data) = [c] ∧ 'A' ≤ c ∧ c ≤ 'Z') →
        normalizeGuess table input = "") ∧
    (∀ (pre post : List Char) (c : Char),
      (∀ x ∈ pre, isWhiteSpace x = true) → (∀ x ∈ post, isWhiteSpace x = true) →
      'a' ≤ c → c ≤ 'z' →
        normalizeGuess table (String.mk (pre ++ c :: post)) = String.singleton c.toUpper ∧
        'A' ≤ c.toUpper ∧ c.toUpper ≤ 'Z' ∧ c.toUpper.toNat + 32 = c.toNat) ∧
    normalizeGuess table "" = "" ∧
    (∀ ws : List Char, (∀ x ∈ ws, isWhiteSpace x = true) →
      normalizeGuess table (String.mk ws) = "") ∧
    (∀ (pre post : List Char) (c : Char),
      (∀ x ∈ pre, isWhiteSpace x = true) → (∀ x ∈ post, isWhiteSpace x = true) →
      c.toNat < 128 → ¬ ('a' ≤ c ∧ c ≤ 'z') → ¬ ('A' ≤ c ∧ c ≤ 'Z') →
        normalizeGuess table (String.mk (pre ++ c :: post)) = "") ∧
    (∀ input : String, (∀ x ∈ input.data, x.toNat < 128) →
      2 ≤ (trim input.data).length → normalizeGuess table input = "") := by
  refine ⟨normalizeGuess_eq_singleton_iff table,
    normalizeGuess_eq_empty_of_not_letter table, ?_, rfl, ?_, ?_, ?_⟩
  · intro pre post c hpre hpost ha hz
    have ha97 : 97 ≤ c.toNat := ha
    have hz122 : c.toNat ≤ 122 := hz
    have hup := toUpper_of_lower c ha97 hz122
    have hr : 65 ≤ c.toUpper.toNat ∧ c.toUpper.toNat ≤ 90 := by omega
    refine ⟨?_, ((letter_bounds_iff _).mpr hr).1, ((letter_bounds_iff _).mpr hr).2, hup⟩
    rw [normalizeGuess_ascii table pre post c hpre hpost
      (isWhiteSpace_of_lower c ha97 hz122) (by omega)]
    simp [hr]
  · intro ws hws
    apply normalizeGuess_of_upper_ne
    intro c
    show toUpperCase table (trim ws) ≠ [c]
    rw [trim_whiteSpace ws hws]
    simp [toUpperCase]
  · intro pre post c hpre hpost hascii hlow hupp
    have hlow2 : ¬ (97 ≤ c.toNat ∧ c.toNat ≤ 122) := hlow
    have hupp2 : ¬ (65 ≤ c.toNat ∧ c.toNat ≤ 90) := fun h => hupp ((letter_bounds_iff c).mpr h)
    by_cases hws : isWhiteSpace c = true
    · apply normalizeGuess_of_upper_ne
      intro d
      show toUpperCase table (trim (pre ++ c :: post)) ≠ [d]
      rw [trim_whiteSpace]
      · simp [toUpperCase]
      · intro x hx
        rcases List.mem_append.mp hx with h1 | h1
        · exact hpre x h1
        · rcases List.mem_cons.mp h1 with h2 | h2
          · rw [h2]
            exact hws
          · exact hpost x h2
    · have hws2 : isWhiteSpace c = false := by simpa using hws
      rw [normalizeGuess_ascii table pre post c hpre hpost hws2 hascii,
        toUpper_of_not_lower c hlow2]
      simp [hupp2]
  · intro input hascii hlen
    apply normalizeGuess_of_upper_ne
    intro c hc
    have hl := toUpperCase_length_of_ascii table (trim input.data)
      (fun x hx => hascii x (mem_of_mem_trim _ x hx))
    rw [hc] at hl
    simp at hl
    omega

/-- Witness for C3: ` p` followed by a line feed is accepted as `P`. -/
theorem normalizeGuess_spec_witness :
    'a' ≤ 'p' ∧ 'p' ≤ 'z' ∧ normalizeGuess plainTable " p\n" = "P" :=
  ⟨by decide, by decide,
   ((normalizeGuess_spec plainTable).2.2.1 [' '] ['\n'] 'p'
      (by decide) (by decide) (by decide) (by decide)).1⟩

/-! ## Theorems on `submitGuess` and `start` -/

/-- A valid result of `normalizeGuess` is one uppercase letter. -/
theorem normalizeGuess_letter (table : Char → List Char) (input : String)
    (h : normalizeGuess table input ≠ "") :
    ∃ c, normalizeGuess table input = String.singleton c ∧ 'A' ≤ c ∧ c ≤ 'Z' := by
  by_cases hex : ∃ c, toUpperCase table (trim input.data) = [c] ∧ 'A' ≤ c ∧ c ≤ 'Z'
  · obtain ⟨c, hc⟩ := hex
    exact ⟨c, (normalizeGuess_eq_singleton_iff table input c).mpr hc, hc.2⟩
  · exact absurd (normalizeGuess_eq_empty_of_not_letter table input hex) h

theorem submitGuess_of_ok (table : Char → List Char) (fetch : GuessRequest → Fetched GuessJson)
    (s : Session) (letter : String) (next : GuessJson)
    (hs : s.status = Status.playing) (hg : normalizeGuess table letter ≠ "")
    (hu : normalizeGuess table letter ∉ s.used)
    (hr : makeGuess fetch s.gameId (normalizeGuess table letter) = Except.ok next) :
    submitGuess table fetch s letter =
      ({ s with
          current := next.current
          remaining := next.guesses_remaining
          used := setAdd s.used (normalizeGuess table letter)
          status := completedFrom (some next.current) next.guesses_remaining
          errMsg := ""
          loading := false
          guessInput := "" },
        [{ id := s.gameId, guess := normalizeGuess table letter }]) := by
  unfold submitGuess
  simp only [hg, hs, hu, hr, if_false, ne_eq, not_true_eq_false]

theorem submitGuess_of_error (table : Char → List Char)
    (fetch : GuessRequest → Fetched GuessJson)
    (s : Session) (letter : String) (e : JsError)
    (hs : s.status = Status.playing) (hg : normalizeGuess table letter ≠ "")
    (hu : normalizeGuess table letter ∉ s.used)
    (hr : makeGuess fetch s.gameId (normalizeGuess table letter) = Except.error e) :
    submitGuess table fetch s letter =
      ({ s with
          errMsg := errorText e
          status := if e.status = some 404 then Status.idle else s.status
          loading := false
          guessInput := "" },
        [{ id := s.gameId, guess := normalizeGuess table letter }]) := by
  unfold submitGuess
  simp only [hg, hs, hu, hr, if_false, ne_eq, not_true_eq_false]

theorem submitGuess_of_blocked (table : Char → List Char)
    (fetch : GuessRequest → Fetched GuessJson) (s : Session) (letter : String)
    (h : normalizeGuess table letter = "" ∨ s.status ≠ Status.playing ∨
      normalizeGuess table letter ∈ s.used) :
    submitGuess table fetch s letter = (s, []) := by
  unfold submitGuess
  simp only
  split
  · rfl
  · split
    · rfl
    · split
      · rfl
      · rename_i h1 h2 h3
        rcases h with h | h | h
        · exact absurd h h1
        · exact absurd h h2
        · exact absurd h h3

theorem submitGuess_posts (table : Char → List Char)
    (fetch : GuessRequest → Fetched GuessJson) (s : Session) (letter : String)
    (hs : s.status = Status.playing) (hg : normalizeGuess table letter ≠ "")
    (hu : normalizeGuess table letter ∉ s.used) :
    (submitGuess table fetch s letter).2 =
      [{ id := s.gameId, guess := normalizeGuess table letter }] := by
  cases hr : makeGuess fetch s.gameId (normalizeGuess table letter) with
  | ok next => rw [submitGuess_of_ok table fetch s letter next hs hg hu hr]
  | error e => rw [submitGuess_of_error table fetch s letter e hs hg hu hr]

/-- C4: when the candidate does not normalise to a letter, or the status is not
playing, or the normalised letter is already used, `submitGuess` posts nothing to the
remote guess operation and returns the session with every field as it was. -/
theorem submitGuess_noop (table : Char → List Char)
    (fetch : GuessRequest → Fetched GuessJson) (s : Session) (letter : String)
    (h : normalizeGuess table letter = "" ∨ s.status ≠ Status.playing ∨
      normalizeGuess table letter ∈ s.used) :
    (submitGuess table fetch s letter).2 = [] ∧ (submitGuess table fetch s letter).1 = s := by
  rw [submitGuess_of_blocked table fetch s letter h]
  exact ⟨rfl, rfl⟩

/-- Witness for C4: in the state where `P` is used, submitting `p` again posts nothing
and changes nothing. -/
theorem submitGuess_noop_witness :
    normalizeGuess plainTable "p" ∈ guessedState.used ∧
    (submitGuess plainTable (fun _ => guessedWin) guessedState "p").2 = [] ∧
    (submitGuess plainTable (fun _ => guessedWin) guessedState "p").1 = guessedState :=
  ⟨by decide,
   submitGuess_noop plainTable (fun _ => guessedWin) guessedState "p"
     (Or.inr (Or.inr (by decide)))⟩

/-- C5: in a playing state, for a candidate whose normalised letter `g` is valid and
unused and a successful guess response `next`, after `submitGuess` the board is
`next.current`, the attempts are `next.guesses_remaining`, the used letters are the
old ones with `g` (one uppercase letter) added, the status is `completedFrom` of the
new board and attempts, and the game id is unchanged; the one request posted carries
the game id and `g`. -/
theorem submitGuess_success (table : Char → List Char)
    (fetch : GuessRequest → Fetched GuessJson)
    (s : Session) (letter : String) (next : GuessJson)
    (hs : s.status = Status.playing) (hg : normalizeGuess table letter ≠ "")
    (hu : normalizeGuess table letter ∉ s.used)
    (hr : makeGuess fetch s.gameId (normalizeGuess table letter) = Except.ok next) :
    (submitGuess table fetch s letter).1.current = next.current ∧
    (submitGuess table fetch s letter).1.remaining = next.guesses_remaining ∧
    (submitGuess table fetch s letter).1.used = s.used ++ [normalizeGuess table letter] ∧
    (∀ x, x ∈ (submitGuess table fetch s letter).1.used ↔
      (x ∈ s.used ∨ x = normalizeGuess table letter)) ∧
    (∃ c, normalizeGuess table letter = String.singleton c ∧ 'A' ≤ c ∧ c ≤ 'Z') ∧
    (submitGuess table fetch s letter).1.status =
      completedFrom (some next.current) next.guesses_remaining ∧
    (submitGuess table fetch s letter).1.status =
      derive (some (submitGuess table fetch s letter).1.current)
        (submitGuess table fetch s letter).1.remaining ∧
    (submitGuess table fetch s letter).1.gameId = s.gameId ∧
    (submitGuess table fetch s letter).2 =
      [{ id := s.gameId, guess := normalizeGuess table letter }] := by
  rw [submitGuess_of_ok table fetch s letter next hs hg hu hr]
  refine ⟨rfl, rfl, ?_, ?_, normalizeGuess_letter table letter hg, rfl, ?_, rfl, rfl⟩
  · simp [setAdd, hu]
  · intro x
    simp [setAdd, hu]
  · exact completedFrom_refines (some next.current) next.guesses_remaining

/-- Witness for C5: after a start, submitting `p` with the response
`{current:"_ P _", guesses_remaining:6}` gives the board `_ P _`, the used letters
`{P}` and the status playing. -/
theorem submitGuess_success_witness :
    playingState.status = Status.playing ∧
    (submitGuess plainTable (fun _ => guessedOk) playingState "p").1.current = "_ P _" ∧
    (submitGuess plainTable (fun _ => guessedOk) playingState "p").1.used =
      playingState.used ++ [normalizeGuess plainTable "p"] :=
  have h := submitGuess_success plainTable (fun _ => guessedOk) playingState "p"
    { current := "_ P _", guesses_remaining := 6 }
    (by decide) (by decide) (by decide) rfl
  ⟨by decide, h.1, h.2.2.1⟩

/-- C6 fails as stated: after a guess answered with status 404 the board, the attempts
and the used letters are unchanged, but the status is idle, so submitting the same
letter again posts nothing and changes nothing: the letter cannot be retried. -/
theorem retry_blocked_after_not_found :
    (submitGuess plainTable (fun _ => guessedNotFound) playingState "p").1.status =
      Status.idle ∧
    (submitGuess plainTable (fun _ => guessedNotFound) playingState "p").1.current =
      playingState.current ∧
    (submitGuess plainTable (fun _ => guessedNotFound) playingState "p").1.remaining =
      playingState.remaining ∧
    (submitGuess plainTable (fun _ => guessedNotFound) playingState "p").1.used =
      playingState.used ∧
    (submitGuess plainTable (fun _ => guessedOk)
      (submitGuess plainTable (fun _ => guessedNotFound) playingState "p").1 "p").2 = [] ∧
    (submitGuess plainTable (fun _ => guessedOk)
      (submitGuess plainTable (fun _ => guessedNotFound) playingState "p").1 "p").1 =
      (submitGuess plainTable (fun _ => guessedNotFound) playingState "p").1 := by
  decide

/-- C6 (amended): when `submitGuess` passes its three checks and the remote guess
operation fails with the error `e`, the error message becomes the text of `e` (its
message whenever that is non-empty, which holds for every error `makeGuess` builds
from a failed response), the status becomes idle exactly when `e` carries the status
404 and otherwise stays playing, and in both cases the board, the attempts, the used
letters and the game id are unchanged. When `e` does not carry the status 404,
submitting the same letter again reaches the remote again; when it does, submitting
the same letter again posts nothing and changes nothing. -/
theorem submitGuess_failure (table : Char → List Char)
    (fetch : GuessRequest → Fetched GuessJson)
    (s : Session) (letter : String) (e : JsError)
    (hs : s.status = Status.playing) (hg : normalizeGuess table letter ≠ "")
    (hu : normalizeGuess table letter ∉ s.used)
    (hr : makeGuess fetch s.gameId (normalizeGuess table letter) = Except.error e) :
    (submitGuess table fetch s letter).1.errMsg = errorText e ∧
    (e.message ≠ "" → (submitGuess table fetch s letter).1.errMsg = e.message) ∧
    (∀ (status : Nat) (t : String) (json : Except JsError GuessJson),
      fetch { id := s.gameId, guess := normalizeGuess table letter } =
        Fetched.response status (Except.ok t) json → resOk status = false →
      e.message ≠ "" ∧ e.status = some status ∧
      e.message = (if t ≠ "" then t else "HTTP " ++ toString status)) ∧
    ((submitGuess table fetch s letter).1.status = Status.idle ↔ e.status = some 404) ∧
    (e.status ≠ some 404 → (submitGuess table fetch s letter).1.status = Status.playing) ∧
    (submitGuess table fetch s letter).1.current = s.current ∧
    (submitGuess table fetch s letter).1.remaining = s.remaining ∧
    (submitGuess table fetch s letter).1.used = s.used ∧
    (submitGuess table fetch s letter).1.gameId = s.gameId ∧
    (e.status ≠ some 404 → ∀ again : GuessRequest → Fetched GuessJson,
      (submitGuess table again (submitGuess table fetch s letter).1 letter).2 =
        [{ id := s.gameId, guess := normalizeGuess table letter }]) ∧
    (e.status = some 404 → ∀ again : GuessRequest → Fetched GuessJson,
      submitGuess table again (submitGuess table fetch s letter).1 letter =
        ((submitGuess table fetch s letter).1, [])) := by
  rw [submitGuess_of_error table fetch s letter e hs hg hu hr]
  refine ⟨rfl, ?_, ?_, ?_, ?_, rfl, rfl, rfl, rfl, ?_, ?_⟩
  · intro hm
    simp [errorText, hm]
  · intro status t json hf hok
    unfold makeGuess at hr
    rw [hf] at hr
    simp only [hok, Bool.false_eq_true, not_false_eq_true, if_true] at hr
    have he := Except.error.inj hr
    subst he
    refine ⟨?_, rfl, rfl⟩
    simp only
    split
    · assumption
    · intro hcon
      have := congrArg String.length hcon
      simp only [String.length_append] at this
      have h5 : ("HTTP " : String).length = 5 := by decide
      have h0 : ("" : String).length = 0 := by decide
      omega
  · simp only
    constructor
    · intro h
      by_contra hne
      rw [if_neg hne, hs] at h
      exact Status.noConfusion h
    · intro h
      rw [if_pos h]
  · intro hne
    simp only
    rw [if_neg hne, hs]
  · intro hne again
    exact submitGuess_posts table again _ letter (by simp [hne, hs]) hg hu
  · intro h404 again
    apply submitGuess_of_blocked
    right
    left
    simp [h404]

/-- Witness for C6 (amended): after a start, the guess `p` answered with status 404 and
the body `game not found` sets that body as the error message, resets the status to
idle and blocks a further guess; answered with status 500 and an empty body it sets
`HTTP 500`, stays playing, and the same letter reaches the remote again. -/
theorem submitGuess_failure_witness :
    playingState.status = Status.playing ∧
    (submitGuess plainTable (fun _ => guessedNotFound) playingState "p").1.errMsg =
      "game not found" ∧
    (submitGuess plainTable (fun _ => guessedNotFound) playingState "p").1.status =
      Status.idle ∧
    (submitGuess plainTable (fun _ => guessedNotFound) playingState "p").1.used =
      playingState.used ∧
    submitGuess plainTable (fun _ => guessedOk)
        (submitGuess plainTable (fun _ => guessedNotFound) playingState "p").1 "p" =
      ((submitGuess plainTable (fun _ => guessedNotFound) playingState "p").1, []) ∧
    (submitGuess plainTable (fun _ => guessedServerError) playingState "p").1.errMsg =
      "HTTP 500" ∧
    (submitGuess plainTable (fun _ => guessedServerError) playingState "p").1.status =
      Status.playing ∧
    (submitGuess plainTable (fun _ => guessedOk)
        (submitGuess plainTable (fun _ => guessedServerError) playingState "p").1 "p").2 =
      [{ id := playingState.gameId, guess := normalizeGuess plainTable "p" }] :=
  have h := submitGuess_failure plainTable (fun _ => guessedNotFound) playingState "p"
    { name := "Error", message := "game not found", status := some 404 }
    (by decide) (by decide) (by decide) rfl
  have k := submitGuess_failure plainTable (fun _ => guessedServerError) playingState "p"
    { name := "Error", message := "HTTP 500", status := some 500 }
    (by decide) (by decide) (by decide) rfl
  ⟨by decide, h.2.1 (by decide), h.2.2.2.1.mpr rfl, h.2.2.2.2.2.2.2.1,
   h.2.2.2.2.2.2.2.2.2.2 rfl (fun _ => guessedOk),
   k.2.1 (by decide), k.2.2.2.2.1 (by decide),
   k.2.2.2.2.2.2.2.2.2.1 (by decide) (fun _ => guessedOk)⟩

theorem start_of_ok (fetched : Fetched NewGameJson) (s : Session) (g : NewGameJson)
    (h : newGame fetched = Except.ok g) :
    start fetched s =
      { gameId := g.id, current := g.current, remaining := g.guesses_remaining, used := [],
        status := Status.playing, loading := false, errMsg := "", guessInput := "" } := by
  unfold start
  rw [h]

theorem start_of_error (fetched : Fetched NewGameJson) (s : Session) (e : JsError)
    (h : newGame fetched = Except.error e) :
    start fetched s =
      { s with errMsg := errorText e, status := Status.idle, loading := false } := by
  unfold start
  rw [h]

/-- C7: from every prior state, a successful start-game response `g` leaves the used
letters empty, the game id `g.id`, the board `g.current`, the attempts
`g.guesses_remaining`, the status playing and the error message cleared; a failed
start leaves the status idle and the error message set to the text of the failure,
which for a response with a non-success status is its body (or `Error` for an empty
body), never the empty string. -/
theorem start_spec (s : Session) :
    (∀ (fetched : Fetched NewGameJson) (g : NewGameJson), newGame fetched = Except.ok g →
      (start fetched s).used = [] ∧ (start fetched s).gameId = g.id ∧
      (start fetched s).current = g.current ∧
      (start fetched s).remaining = g.guesses_remaining ∧
      (start fetched s).status = Status.playing ∧ (start fetched s).errMsg = "") ∧
    (∀ (status : Nat) (text : Except JsError String) (g : NewGameJson),
      resOk status = true →
      newGame (Fetched.response status text (Except.ok g)) = Except.ok g) ∧
    (∀ (fetched : Fetched NewGameJson) (e : JsError), newGame fetched = Except.error e →
      (start fetched s).status = Status.idle ∧ (start fetched s).errMsg = errorText e) ∧
    (∀ (status : Nat) (t : String) (json : Except JsError NewGameJson),
      resOk status = false →
      (start (Fetched.response status (Except.ok t) json) s).status = Status.idle ∧
      (start (Fetched.response status (Except.ok t) json) s).errMsg =
        (if t ≠ "" then t else "Error") ∧
      (start (Fetched.response status (Except.ok t) json) s).errMsg ≠ "") := by
  refine ⟨?_, ?_, ?_, ?_⟩
  · intro fetched g h
    rw [start_of_ok fetched s g h]
    exact ⟨rfl, rfl, rfl, rfl, rfl, rfl⟩
  · intro status text g hok
    simp [newGame, hok]
  · intro fetched e h
    rw [start_of_error fetched s e h]
    exact ⟨rfl, rfl⟩
  · intro status t json hok
    have hnew : newGame (Fetched.response status (Except.ok t) json) =
        Except.error { name := "Error", message := t, status := none } := by
      simp [newGame, hok]
    rw [start_of_error _ s _ hnew]
    have hempty : errorText { name := "Error", message := "", status := none } = "Error" := by
      decide
    refine ⟨rfl, ?_, ?_⟩
    · show errorText { name := "Error", message := t, status := none } = _
      by_cases ht : t = ""
      · subst ht
        rw [hempty]
        rfl
      · simp [errorText, ht]
    · show errorText { name := "Error", message := t, status := none } ≠ ""
      by_cases ht : t = ""
      · subst ht
        rw [hempty]
        decide
      · simp [errorText, ht]

/-- Witness for C7: from a won state, the response
`{id:"abc123", current:"_ _ _", guesses_remaining:6}` gives the status playing with no
used letters, and a response with status 500 gives the status idle. -/
theorem start_spec_witness :
    (start startedOk wonState).used = [] ∧
    (start startedOk wonState).status = Status.playing ∧
    (start startedFail wonState).status = Status.idle ∧
    (start startedFail wonState).errMsg = "boom" :=
  have h1 := (start_spec wonState).1 startedOk
    { id := "abc123", current := "_ _ _", guesses_remaining := 6 } rfl
  have h2 := (start_spec wonState).2.2.2 500 "boom"
    (Except.error ⟨"SyntaxError", "bad json", none⟩) (by decide)
  ⟨h1.1, h1.2.2.2.2.1, h2.1, h2.2.1⟩

/-! ## Invariants along sequences of completed calls -/

theorem completedFrom_won (b : String) (n : Int)
    (h : completedFrom (some b) n = Status.won) : b ≠ "" ∧ ¬ hasPlaceholder b := by
  unfold completedFrom at h
  simp only at h
  split at h
  · exact Status.noConfusion h
  · rename_i hne
    split at h
    · rename_i hidx
      exact ⟨hne, (indexOf_eq_neg_one_iff b '_').mp hidx⟩
    · split at h <;> exact Status.noConfusion h

theorem completedFrom_lost (b : String) (n : Int)
    (h : completedFrom (some b) n = Status.lost) : n = 0 ∧ hasPlaceholder b := by
  unfold completedFrom at h
  simp only at h
  split at h
  · exact Status.noConfusion h
  · split at h
    · exact Status.noConfusion h
    · rename_i hidx
      split at h
      · rename_i hn
        refine ⟨hn, ?_⟩
        by_contra hcon
        exact hidx ((indexOf_eq_neg_one_iff b '_').mpr hcon)
      · exact Status.noConfusion h

/-- The three ways a call of `submitGuess` can end. -/
theorem submitGuess_cases (table : Char → List Char)
    (fetch : GuessRequest → Fetched GuessJson) (s : Session) (letter : String) :
    (submitGuess table fetch s letter).1 = s ∨
    (s.status = Status.playing ∧ ∃ next : GuessJson,
      (submitGuess table fetch s letter).1 =
        { s with
            current := next.current
            remaining := next.guesses_remaining
            used := setAdd s.used (normalizeGuess table letter)
            status := completedFrom (some next.current) next.guesses_remaining
            errMsg := ""
            loading := false
            guessInput := "" }) ∨
    (s.status = Status.playing ∧ ∃ e : JsError,
      (submitGuess table fetch s letter).1 =
        { s with
            errMsg := errorText e
            status := if e.status = some 404 then Status.idle else s.status
            loading := false
            guessInput := "" }) := by
  by_cases hb : normalizeGuess table letter = "" ∨ s.status ≠ Status.playing ∨
      normalizeGuess table letter ∈ s.used
  · left
    rw [submitGuess_of_blocked table fetch s letter hb]
  · have hg : normalizeGuess table letter ≠ "" := fun h => hb (Or.inl h)
    have hs : s.status = Status.playing := by
      by_contra h
      exact hb (Or.inr (Or.inl h))
    have hu : normalizeGuess table letter ∉ s.used := fun h => hb (Or.inr (Or.inr h))
    cases hr : makeGuess fetch s.gameId (normalizeGuess table letter) with
    | ok next =>
      right
      left
      exact ⟨hs, next, by rw [submitGuess_of_ok table fetch s letter next hs hg hu hr]⟩
    | error e =>
      right
      right
      exact ⟨hs, e, by rw [submitGuess_of_error table fetch s letter e hs hg hu hr]⟩

theorem start_cases (fetched : Fetched NewGameJson) (s : Session) :
    (∃ g : NewGameJson, newGame fetched = Except.ok g ∧
      start fetched s =
        { gameId := g.id, current := g.current, remaining := g.guesses_remaining, used := [],
          status := Status.playing, loading := false, errMsg := "", guessInput := "" }) ∨
    (∃ e : JsError, newGame fetched = Except.error e ∧
      start fetched s =
        { s with errMsg := errorText e, status := Status.idle, loading := false }) := by
  cases h : newGame fetched with
  | ok g => exact Or.inl ⟨g, rfl, start_of_ok fetched s g h⟩
  | error e => exact Or.inr ⟨e, rfl, start_of_error fetched s e h⟩

theorem settled_initial : Settled initial := by
  constructor <;> intro h <;> exact Status.noConfusion h

theorem settled_step (table : Char → List Char) (s : Session) (ev : Event)
    (hs : Settled s) : Settled (step table s ev) := by
  cases ev with
  | start fetched =>
    show Settled (start fetched s)
    rcases start_cases fetched s with ⟨g, _, h⟩ | ⟨e, _, h⟩
    · rw [h]
      constructor <;> intro hc <;> exact Status.noConfusion hc
    · rw [h]
      constructor <;> intro hc <;> exact Status.noConfusion hc
  | guess letter fetched =>
    show Settled (submitGuess table (fun _ => fetched) s letter).1
    rcases submitGuess_cases table (fun _ => fetched) s letter with
      h | ⟨_, next, h⟩ | ⟨hp, e, h⟩
    · rw [h]
      exact hs
    · rw [h]
      exact ⟨fun hc => completedFrom_won _ _ hc, fun hc => completedFrom_lost _ _ hc⟩
    · rw [h]
      constructor
      · intro hc
        simp only [hp] at hc
        split at hc <;> exact Status.noConfusion hc
      · intro hc
        simp only [hp] at hc
        split at hc <;> exact Status.noConfusion hc

theorem settled_run (table : Char → List Char) :
    ∀ (events : List Event) (s : Session), Settled s → Settled (run table s events)
  | [], _, hs => hs
  | ev :: rest, s, hs => settled_run table rest (step table s ev) (settled_step table s ev hs)

theorem identified_step (table : Char → List Char) (s : Session) (ev : Event)
    (hid : idsDefined [ev]) (hs : Identified s) : Identified (step table s ev) := by
  cases ev with
  | start fetched =>
    show Identified (start fetched s)
    rcases start_cases fetched s with ⟨g, hg, h⟩ | ⟨e, _, h⟩
    · rw [h]
      intro _ hempty
      apply hid.1
      show startId fetched = some ""
      unfold startId
      rw [hg, ← hempty]
    · rw [h]
      intro hc
      exact absurd rfl hc
  | guess letter fetched =>
    show Identified (submitGuess table (fun _ => fetched) s letter).1
    rcases submitGuess_cases table (fun _ => fetched) s letter with
      h | ⟨hp, next, h⟩ | ⟨hp, e, h⟩
    · rw [h]
      exact hs
    · rw [h]
      intro _
      exact hs (by rw [hp]; exact fun hc => Status.noConfusion hc)
    · rw [h]
      intro _
      exact hs (by rw [hp]; exact fun hc => Status.noConfusion hc)

theorem identified_run (table : Char → List Char) :
    ∀ (events : List Event) (s : Session), idsDefined events → Identified s →
      Identified (run table s events)
  | [], _, _, hs => hs
  | Event.start fetched :: rest, s, hid, hs =>
    identified_run table rest (step table s (Event.start fetched)) hid.2
      (identified_step table s (Event.start fetched) ⟨hid.1, trivial⟩ hs)
  | Event.guess letter fetched :: rest, s, hid, hs =>
    identified_run table rest (step table s (Event.guess letter fetched)) hid
      (identified_step table s (Event.guess letter fetched) trivial hs)

/-- C8 fails as stated: after a won game a failed start leaves the status idle on the
full board `P P P`, and the initial state is idle on the empty board; in both the
board contains no placeholder while the status is not won. -/
theorem won_iff_no_placeholder_fails :
    (run plainTable initial
      [Event.start startedOk, Event.guess "p" guessedWin, Event.start startedFail]).status =
        Status.idle ∧
    (run plainTable initial
      [Event.start startedOk, Event.guess "p" guessedWin, Event.start startedFail]).current =
        "P P P" ∧
    ¬ hasPlaceholder (run plainTable initial
      [Event.start startedOk, Event.guess "p" guessedWin, Event.start startedFail]).current ∧
    (run plainTable initial []).status = Status.idle ∧
    ¬ hasPlaceholder (run plainTable initial []).current := by
  decide

/-- C8 (amended): in every state reached from the initial state by completed calls of
`start` and `submitGuess`, the status won implies that the board is non-empty and
contains no placeholder. -/
theorem won_implies_no_placeholder (table : Char → List Char) (events : List Event)
    (h : (run table initial events).status = Status.won) :
    (run table initial events).current ≠ "" ∧
    ¬ hasPlaceholder (run table initial events).current :=
  (settled_run table events initial settled_initial).1 h

/-- Witness for C8 (amended): the state after a start and a guess that completes the
word is won, and its board has no placeholder. -/
theorem won_implies_no_placeholder_witness :
    (run plainTable initial [Event.start startedOk, Event.guess "p" guessedWin]).status =
      Status.won ∧
    ¬ hasPlaceholder
      (run plainTable initial [Event.start startedOk, Event.guess "p" guessedWin]).current :=
  ⟨by decide,
   (won_implies_no_placeholder plainTable
     [Event.start startedOk, Event.guess "p" guessedWin] (by decide)).2⟩

/-- C9 fails as stated: after a guess answered with status 404 the status is idle and
the game id `abc123` is still set, and after a failed start that leaves the status
idle the game id of the previous session is still set; and a start-game response with
an empty id gives the status playing with an empty game id. -/
theorem gameId_kept_when_idle :
    (run plainTable initial
      [Event.start startedOk, Event.guess "p" guessedNotFound]).status = Status.idle ∧
    (run plainTable initial
      [Event.start startedOk, Event.guess "p" guessedNotFound]).gameId = "abc123" ∧
    (run plainTable initial
      [Event.start startedOk, Event.guess "p" guessedNotFound]).gameId ≠ "" ∧
    (run plainTable initial [Event.start startedOk, Event.start startedFail]).status =
      Status.idle ∧
    (run plainTable initial [Event.start startedOk, Event.start startedFail]).gameId ≠ "" ∧
    (run plainTable initial [Event.start startedNoId]).status = Status.playing ∧
    (run plainTable initial [Event.start startedNoId]).gameId = "" := by
  decide

theorem submitGuess_gameId (table : Char → List Char)
    (fetch : GuessRequest → Fetched GuessJson) (s : Session) (letter : String) :
    (submitGuess table fetch s letter).1.gameId = s.gameId := by
  rcases submitGuess_cases table fetch s letter with h | ⟨_, next, h⟩ | ⟨_, e, h⟩ <;>
    rw [h]

theorem start_gameId (fetched : Fetched NewGameJson) (s : Session) :
    (start fetched s).gameId = (startId fetched).getD s.gameId := by
  unfold startId
  rcases start_cases fetched s with ⟨g, hg, h⟩ | ⟨e, he, h⟩
  · rw [h, hg]
    rfl
  · rw [h, he]
    rfl

theorem run_gameId (table : Char → List Char) :
    ∀ (events : List Event) (s : Session),
      (run table s events).gameId = lastStartId s.gameId events
  | [], _ => rfl
  | Event.start fetched :: rest, s => by
    show (run table (start fetched s) rest).gameId = _
    rw [run_gameId table rest (start fetched s), start_gameId]
    rfl
  | Event.guess letter fetched :: rest, s => by
    show (run table (submitGuess table (fun _ => fetched) s letter).1 rest).gameId = _
    rw [run_gameId table rest _, submitGuess_gameId]
    rfl

/-- C9 (amended): when every successful start-game response carries a non-empty id, in
every state reached from the initial state by completed calls of `start` and
`submitGuess` a status of playing, won or lost implies a non-empty game id. The game
id is never cleared: it is always the id of the most recent successful start (empty
before the first one), `submitGuess` always keeps it and a failed `start` keeps it. -/
theorem gameId_defined_of_active (table : Char → List Char) :
    (∀ events : List Event, idsDefined events →
      ((run table initial events).status = Status.playing ∨
        (run table initial events).status = Status.won ∨
        (run table initial events).status = Status.lost) →
      (run table initial events).gameId ≠ "") ∧
    (∀ events : List Event, (run table initial events).gameId = lastStartId "" events) ∧
    (∀ (fetch : GuessRequest → Fetched GuessJson) (s : Session) (letter : String),
      (submitGuess table fetch s letter).1.gameId = s.gameId) ∧
    (∀ (fetched : Fetched NewGameJson) (s : Session) (e : JsError),
      newGame fetched = Except.error e → (start fetched s).gameId = s.gameId) := by
  refine ⟨?_, ?_, submitGuess_gameId table, ?_⟩
  · intro events hid hactive
    apply identified_run table events initial hid (fun hc => absurd rfl hc)
    intro hidle
    rw [hidle] at hactive
    rcases hactive with h | h | h <;> exact Status.noConfusion h
  · intro events
    exact run_gameId table events initial
  · intro fetched s e h
    rw [start_of_error fetched s e h]

/-- Witness for C9 (amended): after a start answered with the id `abc123` and an
accepted guess the status is playing and the game id is non-empty. -/
theorem gameId_defined_of_active_witness :
    idsDefined [Event.start startedOk, Event.guess "p" guessedOk] ∧
    (run plainTable initial [Event.start startedOk, Event.guess "p" guessedOk]).status =
      Status.playing ∧
    (run plainTable initial [Event.start startedOk, Event.guess "p" guessedOk]).gameId ≠ "" :=
  ⟨⟨by decide, trivial⟩, by decide,
   (gameId_defined_of_active plainTable).1
     [Event.start startedOk, Event.guess "p" guessedOk] ⟨by decide, trivial⟩
     (Or.inl (by decide))⟩

/-- C10: in every state reached from the initial state by completed calls of `start`
and `submitGuess`, the status won implies a non-empty board without a placeholder,
the status lost implies no attempts left and a board with a placeholder, a status of
won or lost equals `completedFrom` of the board and the attempts, and a further
`submitGuess` in such a state posts nothing and changes nothing. -/
theorem finished_status_settled (table : Char → List Char) (events : List Event) :
    ((run table initial events).status = Status.won →
      (run table initial events).current ≠ "" ∧
      ¬ hasPlaceholder (run table initial events).current) ∧
    ((run table initial events).status = Status.lost →
      (run table initial events).remaining = 0 ∧
      hasPlaceholder (run table initial events).current) ∧
    ((run table initial events).status = Status.won ∨
        (run table initial events).status = Status.lost →
      (run table initial events).status =
        completedFrom (some (run table initial events).current)
          (run table initial events).remaining) ∧
    ((run table initial events).status = Status.won ∨
        (run table initial events).status = Status.lost →
      ∀ (fetch : GuessRequest → Fetched GuessJson) (letter : String),
        submitGuess table fetch (run table initial events) letter =
          (run table initial events, [])) := by
  have hinv := settled_run table events initial settled_initial
  refine ⟨hinv.1, hinv.2, ?_, ?_⟩
  · intro h
    rcases h with h | h
    · have hw := hinv.1 h
      rw [h, completedFrom_of_full _ _ hw.1 hw.2]
    · have hl := hinv.2 h
      rw [h]
      exact ((completedFrom_of_placeholder _ _ hl.2).1 hl.1).symm
  · intro h fetch letter
    apply submitGuess_of_blocked
    right
    left
    rcases h with h | h <;> rw [h] <;> exact fun hc => Status.noConfusion hc

/-- Witness for C10: the state after a start and a guess that exhausts the attempts is
lost with 0 attempts and a placeholder on the board, and a further guess changes
nothing. -/
theorem finished_status_settled_witness :
    (run plainTable initial [Event.start startedOk, Event.guess "p" guessedLoss]).status =
      Status.lost ∧
    (run plainTable initial [Event.start startedOk, Event.guess "p" guessedLoss]).remaining =
      0 ∧
    submitGuess plainTable (fun _ => guessedWin)
        (run plainTable initial [Event.start startedOk, Event.guess "p" guessedLoss]) "q" =
      (run plainTable initial [Event.start startedOk, Event.guess "p" guessedLoss], []) :=
  have h := finished_status_settled plainTable
    [Event.start startedOk, Event.guess "p" guessedLoss]
  ⟨by decide, (h.2.1 (by decide)).1, h.2.2.2 (Or.inr (by decide)) (fun _ => guessedWin) "q"⟩

end WordGame
